import Mathlib

/-!
Shallow embedding of the snake neuroevolution program (src/main.rs).

Modelling conventions:
* Machine integers (`i32`) are modelled by `Int`; `usize` counters by `Nat`.
* The `f32`/`f64` scalars (fitness scores, roulette draws) are modelled by `ℚ`
  with exact arithmetic; the numeric literals (`100.0`, `0.01`) are carried over
  exactly.
* The neural network lives in an external crate (`neural_network_study`); the
  only thing `Game::update` consumes from it is the argmax index of the output
  vector, so a tick is parameterised by that index (`maxIndex : Nat`).  The
  source's fallback arm `_ => self.snake.direction` is kept.
* The random number generator is modelled by explicit parameters: the freshly
  sampled food position for a tick, and streams of draws for selection.
-/

namespace SnakeGame

/-- Number of grid rows (`const ROWS: i32 = 20`). -/
def ROWS : Int := 20

/-- Number of grid columns (`const COLS: i32 = 20`). -/
def COLS : Int := 20

/-- Grid cell, from `struct Pos { x: i32, y: i32 }`. -/
structure Pos where
  x : Int
  y : Int
deriving DecidableEq, Repr

/-- Heading, from `enum Dir { Horizontal(i32), Vertical(i32) }`. -/
inductive Dir where
  | horizontal (v : Int)
  | vertical (v : Int)
deriving DecidableEq, Repr

/-- `Dir::up()`. -/
def Dir.up : Dir := .vertical (-1)

/-- `Dir::down()`. -/
def Dir.down : Dir := .vertical 1

/-- `Dir.left()`. -/
def Dir.left : Dir := .horizontal (-1)

/-- `Dir::right()`. -/
def Dir.right : Dir := .horizontal 1

/-- The `AddAssign<Dir> for Pos` implementation: move a cell by a heading. -/
def Pos.addDir (p : Pos) (d : Dir) : Pos :=
  match d with
  | .horizontal v => { p with x := p.x + v }
  | .vertical v => { p with y := p.y + v }

/-- Auxiliary predicate for stating the heading invariant: two headings lie on
the same axis (both horizontal or both vertical).  `Snake::can_turn` is the
source definition; this is only used to phrase theorems. -/
def Dir.sameAxis : Dir → Dir → Bool
  | .horizontal _, .horizontal _ => true
  | .vertical _, .vertical _ => true
  | _, _ => false

/-- The agent, from `struct Snake { body: Vec<Pos>, direction: Dir }`.
The body is head-first. -/
structure Snake where
  body : List Pos
  direction : Dir
deriving DecidableEq, Repr

/-- `Snake::new(x, y)`. -/
def Snake.mk' (x y : Int) : Snake :=
  { body := [⟨x, y⟩], direction := .horizontal 1 }

/-- `Snake::head()`, i.e. `self.body[0]`.  The Rust indexing panics on an empty
body; the body is never empty in any reachable state, and the default value
totalises the function. -/
def Snake.head (s : Snake) : Pos := s.body.headD ⟨0, 0⟩

/-- `Snake::len()`. -/
def Snake.len (s : Snake) : Nat := s.body.length

/-- `Snake::can_turn(new_direction)`: a turn is allowed exactly when the
requested heading is on the other axis. -/
def Snake.canTurn (s : Snake) (newDirection : Dir) : Bool :=
  match s.direction, newDirection with
  | .horizontal _, .horizontal _ => false
  | .vertical _, .vertical _ => false
  | _, _ => true

/-- `Snake::grow()`: duplicate the last body segment.  The Rust
`last().unwrap()` panics on an empty body (unreachable); the empty case is
totalised as the identity. -/
def Snake.grow (s : Snake) : Snake :=
  match s.body.getLast? with
  | none => s
  | some last => { s with body := s.body ++ [last] }

/-- The body-shift loop of `Snake::update`:
`for i in (1..self.body.len()).rev() { self.body[i] = self.body[i - 1]; }`.
`shiftLoop b i` performs the assignments for indices `i, i-1, ..., 1` in that
order. -/
def shiftLoop (body : List Pos) : Nat → List Pos
  | 0 => body
  | i + 1 => shiftLoop (body.set (i + 1) (body.getD i ⟨0, 0⟩)) i

/-- `Snake::update()`: first the head (`self.body[0] += self.direction`), then
the reverse-order shift loop.  Note the loop runs on the body whose head has
already been moved. -/
def Snake.update (s : Snake) : Snake :=
  match s.body with
  | [] => s
  | h :: t =>
      let moved := h.addDir s.direction :: t
      { s with body := shiftLoop moved (moved.length - 1) }

/-- `Snake::eat(food)`: grow when the head is on the food; the Bool mirrors the
Rust return value. -/
def Snake.eat (s : Snake) (food : Pos) : Snake × Bool :=
  if s.head = food then (s.grow, true) else (s, false)

/-- The self-collision loop of `Game::update`:
`for i in 2..self.snake.len() { if self.snake.head() == self.snake.body[i] }`. -/
def Snake.selfCollide (s : Snake) : Bool :=
  (List.range' 2 (s.body.length - 2)).any fun i => s.head == s.body.getD i ⟨0, 0⟩

/-- The wall-exit check of `Game::update`. -/
def Snake.headOutOfBounds (s : Snake) : Bool :=
  decide (s.head.x < 0) || decide (COLS ≤ s.head.x) ||
    decide (s.head.y < 0) || decide (ROWS ≤ s.head.y)

/-- Game status, from `enum GameState { Running, Over }`. -/
inductive GameState where
  | running
  | over
deriving DecidableEq, Repr

/-- One individual's environment, from `struct Game`.  The `brain` and `rng`
fields are external state (neural network crate, OS-seeded generator) and are
modelled as explicit per-tick parameters instead of fields. -/
structure Game where
  state : GameState
  food : Pos
  steps : Nat
  snake : Snake
deriving DecidableEq, Repr

/-- Decoding of the brain's argmax index into a desired heading
(`match max_index { 0 => up, 1 => down, 2 => left, 3 => right, _ => current }`). -/
def decodeDir (fallback : Dir) (maxIndex : Nat) : Dir :=
  match maxIndex with
  | 0 => Dir.up
  | 1 => Dir.down
  | 2 => Dir.left
  | 3 => Dir.right
  | _ => fallback

/-- The `GameState::Running` arm of `Game::update`, in source order:
increment `steps`, move the snake, self-collision check, resolve and apply the
brain's desired heading, food check (with `newFood` standing for
`Pos::random(&mut self.rng)`), wall check. -/
def Game.updateRunning (g : Game) (maxIndex : Nat) (newFood : Pos) : Game :=
  let snake1 := g.snake.update
  let state1 := if snake1.selfCollide then GameState.over else GameState.running
  let desired := decodeDir snake1.direction maxIndex
  let snake2 := if snake1.canTurn desired then { snake1 with direction := desired } else snake1
  let eaten := snake2.eat g.food
  let snake3 := eaten.1
  let food2 := if eaten.2 then newFood else g.food
  let state2 := if snake3.headOutOfBounds then GameState.over else state1
  { state := state2, food := food2, steps := g.steps + 1, snake := snake3 }

/-- `Game::update()`: a no-op when the game is over. -/
def Game.update (g : Game) (maxIndex : Nat) (newFood : Pos) : Game :=
  match g.state with
  | .over => g
  | .running => g.updateRunning maxIndex newFood

/-- Iterated ticks: each element supplies one tick's brain decision and
freshly-sampled food position. -/
def Game.run (g : Game) (ticks : List (Nat × Pos)) : Game :=
  ticks.foldl (fun acc t => acc.update t.1 t.2) g

/-- `Game::evaluate()`, with the `f32` arithmetic modelled exactly over `ℚ`:
`if len > 1 { 100.0 * len / steps } else { 0.01 * steps }`. -/
def Game.evaluate (g : Game) : ℚ :=
  let len := g.snake.len
  if len > 1 then 100 * (len : ℚ) / (g.steps : ℚ)
  else (1 / 100) * (g.steps : ℚ)

/-- Decidability of the descending comparison used to sort a scored
generation. -/
instance {β : Type} : DecidableRel (fun (a b : ℚ × β) => b.1 ≤ a.1) :=
  fun a b => inferInstanceAs (Decidable (b.1 ≤ a.1))

/-- `scored_games.sort_by(|a, b| b.0.partial_cmp(&a.0).unwrap())`: a stable
sort by descending score.  Scored individuals are `(score, brain)` pairs with
the brain abstracted by a type parameter. -/
def sortDesc {β : Type} (gen : List (ℚ × β)) : List (ℚ × β) :=
  List.insertionSort (fun a b => b.1 ≤ a.1) gen

/-- The champion-update loop of `train` for one generation (lines 353-364):
sort descending, then fold with `score_sum`-independent state
`(best_score, champion)` where `best_score` starts from `0.0` anew in every
generation and `champion` is carried across generations. -/
def generationChampion {β : Type} (champ : Option β) (gen : List (ℚ × β)) : Option β :=
  ((sortDesc gen).foldl
    (fun acc sg => if acc.1 < sg.1 then (sg.1, some sg.2) else acc)
    ((0 : ℚ), champ)).2

/-- The effect of the whole generation loop of `train` on the champion slot,
given the scored lists the generations produced: the slot starts as `None`. -/
def trainChampion {β : Type} (gens : List (List (ℚ × β))) : Option β :=
  gens.foldl generationChampion none

/-- The roulette walk of `train` (lines 375-384): accumulate scores over the
sorted list and pick the first individual whose cumulative score reaches the
draw `r`. -/
def rouletteWalk {β : Type} (scored : List (ℚ × β)) (r : ℚ) : Option β :=
  (scored.foldl
    (fun acc sg =>
      match acc.2 with
      | some _ => acc
      | none =>
          let c := acc.1 + sg.1
          if r ≤ c then (c, some sg.2) else (c, none))
    ((0 : ℚ), (none : Option β))).2

/-- One parent selection (lines 374-391): roulette when the total score is
positive, a uniform index draw (`rollIdx`, the value of
`rng.random_range(0..len)`) when it is zero, and the `panic!()` arm -- modelled
as `none` -- otherwise. -/
def selectParent {β : Type} (scored : List (ℚ × β)) (scoreSum : ℚ)
    (rollR : ℚ) (rollIdx : Nat) : Option β :=
  if 0 < scoreSum then rouletteWalk scored rollR
  else if scoreSum = 0 then (scored[rollIdx]?).map Prod.snd
  else none

/-- One iteration of the reproduction `while` loop: select a parent, mutate a
clone of its brain, push the child.  `none` propagates a failed selection
(the `unwrap` panic). -/
def reproduceStep {β : Type} (scored : List (ℚ × β)) (scoreSum : ℚ)
    (mutate : β → β) (draws : Nat → ℚ × Nat)
    (acc : Option (List β)) (k : Nat) : Option (List β) :=
  match acc with
  | none => none
  | some pop =>
      match selectParent scored scoreSum (draws k).1 (draws k).2 with
      | none => none
      | some parent => some (pop ++ [mutate parent])

/-- The reproduction loop of `train` (lines 370-397): starting from an empty
new population, run the selection/mutation step once per missing offspring
until the target size (`POPULATION_SIZE`) is reached.  `draws k` supplies the
two random draws iteration `k` may consume (a roulette roll and a uniform
index), and `mutate` abstracts `Brain::mutate` of the external crate. -/
def selectAndReproduce {β : Type} (scored : List (ℚ × β)) (mutate : β → β)
    (draws : Nat → ℚ × Nat) (target : Nat) : Option (List β) :=
  let scoreSum := (scored.map Prod.fst).sum
  (List.range target).foldl (reproduceStep scored scoreSum mutate draws) (some [])

/-! ### Concrete states used in counterexamples and witnesses -/

/-- A running game whose snake has length 2, heading right, food out of the
way. -/
def twoSegGame : Game :=
  { state := .running, food := ⟨0, 0⟩, steps := 0,
    snake := { body := [⟨5, 5⟩, ⟨4, 5⟩], direction := .horizontal 1 } }

/-- A finished game, used to exercise the `Over` arm of `Game::update`. -/
def overGame : Game :=
  { state := .over, food := ⟨1, 1⟩, steps := 5,
    snake := { body := [⟨3, 3⟩], direction := .horizontal 1 } }

/-- Two concrete scored generations (brains named by `Nat` ids): generation 1
holds brain 0 with score 5, generation 2 holds brain 1 with score 1. -/
def c2gens : List (List (ℚ × Nat)) := [[(5, 0)], [(1, 1)]]

/-- Concrete scored generations in which every individual scored exactly 0. -/
def c9gens : List (List (ℚ × Nat)) := [[(0, 0), (0, 1)], [(0, 2)]]

/-! ### The body-shift loop of `Snake::update` -/

/-- The shift loop does not change the body length. -/
theorem shiftLoop_length (i : Nat) : ∀ b : List Pos, (shiftLoop b i).length = b.length := by
  induction i with
  | zero => intro b; rfl
  | succ k ih =>
      intro b
      simp only [shiftLoop]
      rw [ih]
      simp

/-- Pointwise description of the shift loop: running it down from index `i`
makes every position `1 ≤ j ≤ i` hold the initial value of position `j - 1`
and leaves every other position unchanged. -/
theorem shiftLoop_getElem (i : Nat) : ∀ b : List Pos, i < b.length → ∀ j : Nat,
    (shiftLoop b i)[j]? = if 1 ≤ j ∧ j ≤ i then b[j - 1]? else b[j]? := by
  induction i with
  | zero =>
      intro b _ j
      simp only [shiftLoop]
      rw [if_neg (by omega)]
  | succ k ih =>
      intro b hb j
      have hk : k < (b.set (k + 1) (b.getD k ⟨0, 0⟩)).length := by
        simp only [List.length_set]; omega
      simp only [shiftLoop]
      rw [ih (b.set (k + 1) (b.getD k ⟨0, 0⟩)) hk j]
      by_cases h1 : 1 ≤ j ∧ j ≤ k
      · rw [if_pos h1, if_pos ⟨h1.1, by omega⟩, List.getElem?_set_ne (by omega)]
      · by_cases h2 : j = k + 1
        · subst h2
          rw [if_neg h1, if_pos ⟨by omega, by omega⟩, List.getElem?_set_self hb,
            List.getD_eq_getElem?_getD, List.getElem?_eq_getElem (by omega)]
          simp
        · rw [if_neg h1, if_neg (by omega), List.getElem?_set_ne (by omega)]

/-! ### Facts about `Snake::update` -/

/-- `Snake::update` keeps the heading. -/
theorem Snake.update_direction (s : Snake) : s.update.direction = s.direction := by
  unfold Snake.update
  split <;> rfl

/-- `Snake::update` keeps the body length. -/
theorem Snake.update_length (s : Snake) : s.update.body.length = s.body.length := by
  unfold Snake.update
  split
  · rfl
  · next h t heq => simp [shiftLoop_length, heq]

/-- After `Snake::update` the head has been advanced by the heading. -/
theorem Snake.update_body_zero (s : Snake) (h : s.body ≠ []) :
    s.update.body[0]? = some (s.head.addDir s.direction) := by
  obtain ⟨body, dir⟩ := s
  cases body with
  | nil => exact absurd rfl h
  | cons hd t =>
      show (shiftLoop (hd.addDir dir :: t) ((hd.addDir dir :: t).length - 1))[0]? = _
      rw [shiftLoop_getElem _ _ (by simp) 0, if_neg (by omega)]
      simp [Snake.head]

/-- After `Snake::update` the segment at index 1 equals the advanced head:
the head was moved before the reverse shift loop copied it into index 1. -/
theorem Snake.update_body_one (s : Snake) (h : 2 ≤ s.body.length) :
    s.update.body[1]? = some (s.head.addDir s.direction) := by
  obtain ⟨body, dir⟩ := s
  cases body with
  | nil => simp at h
  | cons hd t =>
      show (shiftLoop (hd.addDir dir :: t) ((hd.addDir dir :: t).length - 1))[1]? = _
      rw [shiftLoop_getElem _ _ (by simp) 1, if_pos ⟨le_refl 1, by simp at h ⊢; omega⟩]
      simp [Snake.head]

/-- After `Snake::update`, every position `i ≥ 2` holds the previous value of
position `i - 1`. -/
theorem Snake.update_body_ge_two (s : Snake) (i : Nat) (h2 : 2 ≤ i)
    (hi : i < s.body.length) :
    s.update.body[i]? = s.body[i - 1]? := by
  obtain ⟨body, dir⟩ := s
  cases body with
  | nil => simp at hi
  | cons hd t =>
      show (shiftLoop (hd.addDir dir :: t) ((hd.addDir dir :: t).length - 1))[i]? = _
      rw [shiftLoop_getElem _ _ (by simp) i, if_pos ⟨by omega, by simp at hi ⊢; omega⟩]
      have h1 : i - 1 = (i - 2) + 1 := by omega
      rw [h1]
      rfl

/-! ### Facts about `Snake::grow`, `Snake::eat` and the turn step -/

/-- `Snake::grow` keeps the heading. -/
theorem Snake.grow_direction (s : Snake) : s.grow.direction = s.direction := by
  unfold Snake.grow
  split <;> rfl

/-- `Snake::grow` appends at the tail, so every existing index is unchanged. -/
theorem Snake.grow_getElem (s : Snake) (i : Nat) (hi : i < s.body.length) :
    s.grow.body[i]? = s.body[i]? := by
  unfold Snake.grow
  split
  · rfl
  · exact List.getElem?_append_left hi

/-- The snake returned by `Snake::eat` keeps the heading. -/
theorem Snake.eat_fst_direction (s : Snake) (food : Pos) :
    (s.eat food).1.direction = s.direction := by
  unfold Snake.eat
  split
  · exact Snake.grow_direction s
  · rfl

/-- The snake returned by `Snake::eat` keeps every existing body index. -/
theorem Snake.eat_fst_getElem (s : Snake) (food : Pos) (i : Nat)
    (hi : i < s.body.length) :
    (s.eat food).1.body[i]? = s.body[i]? := by
  unfold Snake.eat
  split
  · exact Snake.grow_getElem s i hi
  · rfl

/-- The turn-then-eat tail of a running tick keeps every existing body
index. -/
theorem turnEat_body_getElem (s : Snake) (d : Dir) (food : Pos) (i : Nat)
    (hi : i < s.body.length) :
    ((if s.canTurn d then { s with direction := d } else s).eat food).1.body[i]? =
      s.body[i]? := by
  cases hc : s.canTurn d
  · simp only [hc, Bool.false_eq_true, if_false]
    exact Snake.eat_fst_getElem _ _ _ hi
  · simp only [hc, if_true]
    exact Snake.eat_fst_getElem _ _ _ hi

/-! ### Facts about a running tick of `Game::update` -/

/-- A running tick increments the step counter once. -/
theorem Game.updateRunning_steps (g : Game) (m : Nat) (f : Pos) :
    (g.updateRunning m f).steps = g.steps + 1 := rfl

/-- Every body index that existed before a running tick is, after the whole
tick, exactly what `Snake::update` left there: neither the turn, nor the
growth on eating, touches indices below the old length. -/
theorem Game.updateRunning_body_getElem (g : Game) (m : Nat) (f : Pos) (i : Nat)
    (hi : i < g.snake.body.length) :
    (g.updateRunning m f).snake.body[i]? = g.snake.update.body[i]? := by
  have hlen : i < g.snake.update.body.length := by
    rw [Snake.update_length]; exact hi
  simp only [Game.updateRunning]
  exact turnEat_body_getElem _ _ _ _ hlen

/-- The heading after a running tick: the brain's decoded desired heading if
the turn is allowed, the previous heading otherwise. -/
theorem Game.updateRunning_direction (g : Game) (m : Nat) (f : Pos) :
    (g.updateRunning m f).snake.direction =
      (if g.snake.update.canTurn (decodeDir g.snake.direction m)
        then decodeDir g.snake.direction m else g.snake.direction) := by
  simp only [Game.updateRunning, Snake.update_direction, Snake.eat_fst_direction]
  split
  · rfl
  · exact Snake.update_direction g.snake

/-- `Snake::can_turn` succeeds exactly when the requested heading is on the
other axis. -/
theorem Snake.canTurn_eq_not_sameAxis (s : Snake) (d : Dir) :
    s.canTurn d = !(Dir.sameAxis s.direction d) := by
  obtain ⟨b, dir⟩ := s
  cases dir <;> cases d <;> rfl

/-! ### Claim theorems -/

/-- C1 counterexample: the claim says every body position `i ≥ 1` takes the
prior value of position `i - 1` on a tick.  On a running length-2 snake at
`[(5,5), (4,5)]` heading right, position 1 ends at `(6,5)` -- the *advanced*
head -- and not at the prior value `(5,5)` of position 0, so the claim fails
at `i = 1`. -/
theorem shift_claim_counterexample :
    (twoSegGame.update 9 ⟨1, 1⟩).snake.body[1]? ≠ twoSegGame.snake.body[0]? := by
  decide

/-- C1 (amended): on each tick of a running environment, the head (position 0)
is advanced by the current heading and every body position `i ≥ 2` takes the
prior value of position `i - 1`; position 1, however, takes the advanced head
position, because `Snake::update` moves the head before the reverse shift loop
copies it into index 1. -/
theorem body_shift_amended (g : Game) (m : Nat) (f : Pos)
    (hrun : g.state = .running) (hne : g.snake.body ≠ []) :
    (g.update m f).snake.body[0]? = some (g.snake.head.addDir g.snake.direction) ∧
    (∀ i, 2 ≤ i → i < g.snake.body.length →
      (g.update m f).snake.body[i]? = g.snake.body[i - 1]?) ∧
    (2 ≤ g.snake.body.length →
      (g.update m f).snake.body[1]? = some (g.snake.head.addDir g.snake.direction)) := by
  have hupd : g.update m f = g.updateRunning m f := by
    simp [Game.update, hrun]
  rw [hupd]
  refine ⟨?_, ?_, ?_⟩
  · rw [Game.updateRunning_body_getElem g m f 0 (List.length_pos.mpr hne)]
    exact Snake.update_body_zero g.snake hne
  · intro i h2 hi
    rw [Game.updateRunning_body_getElem g m f i hi]
    exact Snake.update_body_ge_two g.snake i h2 hi
  · intro h2
    rw [Game.updateRunning_body_getElem g m f 1 (by omega)]
    exact Snake.update_body_one g.snake h2

/-- C1 witness: the amended claim evaluated on the concrete length-2 snake. -/
theorem body_shift_amended_witness :
    (twoSegGame.update 9 ⟨1, 1⟩).snake.body[1]? =
      some (twoSegGame.snake.head.addDir twoSegGame.snake.direction) :=
  (body_shift_amended twoSegGame 9 ⟨1, 1⟩ rfl (by decide)).2.2 (by decide)

/-- C10: after every tick of a running environment whose body has length ≥ 2,
the body segment at index 1 equals the segment at index 0 (the post-move head
position): the head is moved first and the reverse shift loop duplicates it
into index 1.  Consequently a self-collision check that included index 1 would
fire on every tick of any snake of length ≥ 2. -/
theorem neck_duplicates_head (g : Game) (m : Nat) (f : Pos)
    (hrun : g.state = .running) (h2 : 2 ≤ g.snake.body.length) :
    (g.update m f).snake.body[1]? = (g.update m f).snake.body[0]? := by
  have hupd : g.update m f = g.updateRunning m f := by
    simp [Game.update, hrun]
  have hne : g.snake.body ≠ [] := by
    intro h
    rw [h] at h2
    simp at h2
  rw [hupd, Game.updateRunning_body_getElem g m f 1 (by omega),
    Game.updateRunning_body_getElem g m f 0 (by omega),
    Snake.update_body_one g.snake h2, Snake.update_body_zero g.snake hne]

/-- C10 witness: the neck equals the head after a concrete tick, including a
growing tick (the food is placed on the cell the head moves onto). -/
theorem neck_duplicates_head_witness :
    (twoSegGame.update 9 ⟨1, 1⟩).snake.body[1]? =
      (twoSegGame.update 9 ⟨1, 1⟩).snake.body[0]? :=
  neck_duplicates_head twoSegGame 9 ⟨1, 1⟩ rfl (by decide)

/-- C4 counterexample: the claim says the step counter is incremented once per
tick regardless of status.  A tick on a concrete `Over` environment leaves the
counter unchanged (the whole tick is a no-op), refuting the `Over` half. -/
theorem steps_over_counterexample :
    (overGame.update 0 ⟨2, 2⟩).steps ≠ overGame.steps + 1 := by
  decide

/-- C4 (amended): the step counter is incremented exactly once per tick while
the environment is `Running`, and a tick on an `Over` environment leaves it
unchanged. -/
theorem steps_increment_amended (g : Game) (m : Nat) (f : Pos) :
    (g.update m f).steps = (if g.state = .running then g.steps + 1 else g.steps) := by
  cases h : g.state
  · simp [Game.update, h, Game.updateRunning_steps]
  · simp [Game.update, h]

/-- C7: the status is monotonic: once an environment is `Over`, a tick is a
no-op leaving the entire environment state unchanged, and no sequence of ticks
ever returns it to `Running`. -/
theorem over_is_terminal (g : Game) (hover : g.state = .over) :
    (∀ m f, g.update m f = g) ∧ (∀ ticks, g.run ticks = g) := by
  have hstep : ∀ m f, g.update m f = g := by
    intro m f
    simp [Game.update, hover]
  refine ⟨hstep, ?_⟩
  intro ticks
  induction ticks with
  | nil => rfl
  | cons t ts ih =>
      show Game.run (g.update t.1 t.2) ts = g
      rw [hstep t.1 t.2]
      exact ih

/-- C7 witness: a concrete `Over` environment is unchanged by a tick and by a
tick sequence. -/
theorem over_is_terminal_witness :
    overGame.update 1 ⟨0, 0⟩ = overGame ∧
      overGame.run [(0, ⟨1, 2⟩), (3, ⟨4, 4⟩)] = overGame :=
  ⟨(over_is_terminal overGame rfl).1 1 ⟨0, 0⟩,
    (over_is_terminal overGame rfl).2 [(0, ⟨1, 2⟩), (3, ⟨4, 4⟩)]⟩

/-- Auxiliary: if a status of the shape produced by the wall check is `Over`
while the collision arm contributed `Running`, the wall condition must hold. -/
theorem ite_over_running (c : Prop) [Decidable c] :
    (if c then GameState.over else GameState.running) = GameState.over → c := by
  split
  · next hc => exact fun _ => hc
  · exact fun h => GameState.noConfusion h

/-- C8: an environment whose body has length 1 or 2 never triggers the
self-collision transition: the checked index range `2..len` is empty, so the
check is `false` for every tick and every heading, and such a tick can end
`Over` only because the head left the grid. -/
theorem short_body_no_self_collision (g : Game) (m : Nat) (f : Pos)
    (hrun : g.state = .running) (hlen : g.snake.body.length ≤ 2) :
    g.snake.update.selfCollide = false ∧
      ((g.update m f).state = .over → (g.update m f).snake.headOutOfBounds = true) := by
  have hcol : g.snake.update.selfCollide = false := by
    unfold Snake.selfCollide
    have hz : g.snake.update.body.length - 2 = 0 := by
      rw [Snake.update_length]
      omega
    rw [hz]
    rfl
  refine ⟨hcol, ?_⟩
  have hupd : g.update m f = g.updateRunning m f := by
    simp [Game.update, hrun]
  rw [hupd]
  simp only [Game.updateRunning, hcol, Bool.false_eq_true, if_false]
  exact ite_over_running _

/-- C8 witness: the concrete length-2 snake passes its self-collision check. -/
theorem short_body_no_self_collision_witness :
    twoSegGame.snake.update.selfCollide = false :=
  (short_body_no_self_collision twoSegGame 9 ⟨1, 1⟩ rfl (by decide)).1

/-- C5: for every environment state and every decision, the heading is never
reversed in one tick: the heading after a tick is either unchanged or on the
other axis, and a decision whose desired heading shares the current axis (in
particular a reversal, e.g. heading right and requesting left) leaves the
heading unchanged. -/
theorem heading_never_reversed (g : Game) (m : Nat) (f : Pos) :
    ((g.update m f).snake.direction = g.snake.direction ∨
      Dir.sameAxis g.snake.direction ((g.update m f).snake.direction) = false) ∧
    (Dir.sameAxis g.snake.direction (decodeDir g.snake.direction m) = true →
      (g.update m f).snake.direction = g.snake.direction) := by
  cases hst : g.state
  case over =>
      have hid : g.update m f = g := by
        simp [Game.update, hst]
      rw [hid]
      exact ⟨Or.inl rfl, fun _ => rfl⟩
  case running =>
      have hupd : g.update m f = g.updateRunning m f := by
        simp [Game.update, hst]
      rw [hupd, Game.updateRunning_direction, Snake.canTurn_eq_not_sameAxis,
        Snake.update_direction]
      by_cases hax : Dir.sameAxis g.snake.direction (decodeDir g.snake.direction m) = true
      · rw [hax, Bool.not_true, if_neg (by simp)]
        exact ⟨Or.inl rfl, fun _ => rfl⟩
      · have hax' : Dir.sameAxis g.snake.direction (decodeDir g.snake.direction m) = false := by
          cases h : Dir.sameAxis g.snake.direction (decodeDir g.snake.direction m)
          · rfl
          · exact absurd h hax
        rw [hax', Bool.not_false, if_pos rfl]
        exact ⟨Or.inr hax', fun h => Bool.noConfusion h⟩

/-- C5 witness: heading right and requesting left (decision index 2) leaves
the concrete snake's heading unchanged. -/
theorem heading_never_reversed_witness :
    (twoSegGame.update 2 ⟨1, 1⟩).snake.direction = twoSegGame.snake.direction :=
  (heading_never_reversed twoSegGame 2 ⟨1, 1⟩).2 (by decide)

/-- C3: `Game::evaluate` (modelled with exact rational arithmetic in place of
`f32`) never returns a negative value -- so the `assert!(score >= 0.0)` in the
training loop can never fire -- and it computes exactly the claimed rule: for
body length > 1 the fitness is `100 × length / steps`, otherwise it is
`0.01 × steps`. -/
theorem evaluate_nonneg_formula (g : Game) :
    0 ≤ g.evaluate ∧
      g.evaluate =
        (if 1 < g.snake.len then 100 * (g.snake.len : ℚ) / (g.steps : ℚ)
          else (1 / 100) * (g.steps : ℚ)) := by
  constructor
  · simp only [Game.evaluate]
    split
    · exact div_nonneg (mul_nonneg (by norm_num) (Nat.cast_nonneg _)) (Nat.cast_nonneg _)
    · exact mul_nonneg (by norm_num) (Nat.cast_nonneg _)
  · rfl

/-- C2 (evidence of the code bug): `best_score` is re-initialised to `0.0`
inside the generation loop, so the champion slot is overwritten by the best
brain of *every* generation whose best score is positive, not only when it
beats the best score of all previous generations.  Concretely, with
generation 1's only brain (id 0) scoring 5 and generation 2's only brain
(id 1) scoring 1, the loop ends with champion id 1 even though score 5 > 1 was
seen earlier; the claimed best-ever rule would have kept id 0. -/
theorem champion_resets_each_generation :
    trainChampion c2gens = some 1 ∧ trainChampion c2gens ≠ some 0 ∧ (1 : ℚ) < 5 := by
  decide

/-- The champion slot left by one generation loop is `none` exactly when it
was `none` before and no score in the generation exceeds the re-initialised
best score `0`. -/
theorem champ_fold_none {β : Type} (l : List (ℚ × β)) : ∀ (b : ℚ) (c : Option β),
    ((l.foldl (fun acc sg => if acc.1 < sg.1 then (sg.1, some sg.2) else acc) (b, c)).2 = none)
      ↔ (c = none ∧ ∀ sg ∈ l, sg.1 ≤ b) := by
  induction l with
  | nil =>
      intro b c
      simp
  | cons sg l ih =>
      intro b c
      simp only [List.foldl_cons, List.forall_mem_cons]
      by_cases h : b < sg.1
      · rw [if_pos h, ih]
        constructor
        · rintro ⟨h1, -⟩
          exact absurd h1 (Option.some_ne_none _)
        · rintro ⟨-, h2, -⟩
          exact absurd h2 (not_le.mpr h)
      · rw [if_neg h, ih]
        constructor
        · rintro ⟨h1, h2⟩
          exact ⟨h1, le_of_not_lt h, h2⟩
        · rintro ⟨h1, -, h3⟩
          exact ⟨h1, h3⟩

/-- `generationChampion` leaves `none` exactly when it received `none` and the
generation has no positive score (sorting does not change membership). -/
theorem generationChampion_none {β : Type} (c : Option β) (gen : List (ℚ × β)) :
    generationChampion c gen = none ↔ c = none ∧ ∀ sg ∈ gen, sg.1 ≤ 0 := by
  have hmem : ∀ sg : ℚ × β, sg ∈ sortDesc gen ↔ sg ∈ gen := by
    intro sg
    unfold sortDesc
    exact List.mem_insertionSort _
  unfold generationChampion
  rw [champ_fold_none]
  constructor
  · rintro ⟨hc, hall⟩
    exact ⟨hc, fun sg hsg => hall sg ((hmem sg).mpr hsg)⟩
  · rintro ⟨hc, hall⟩
    exact ⟨hc, fun sg hsg => hall sg ((hmem sg).mp hsg)⟩

/-- Folding the generation loop over a list of generations leaves `none`
exactly when it started from `none` and no score anywhere is positive. -/
theorem trainChampion_foldl_none {β : Type} :
    ∀ (gens : List (List (ℚ × β))) (c : Option β),
      gens.foldl generationChampion c = none ↔
        c = none ∧ ∀ gen ∈ gens, ∀ sg ∈ gen, sg.1 ≤ 0 := by
  intro gens
  induction gens with
  | nil =>
      intro c
      simp
  | cons gen gens ih =>
      intro c
      simp only [List.foldl_cons, List.forall_mem_cons]
      rw [ih, generationChampion_none]
      constructor
      · rintro ⟨⟨h1, h2⟩, h3⟩
        exact ⟨h1, h2, h3⟩
      · rintro ⟨h1, h2, h3⟩
        exact ⟨⟨h1, h2⟩, h3⟩

/-- C9: given nonnegative scores (which `Game::evaluate` guarantees), training
ends with an empty champion slot -- the `NoChampionFound` outcome, a `None`
returned to the caller rather than a crash -- if and only if every individual
of every generation scored exactly 0; equivalently, as soon as any individual
of any generation scores positively, a champion is returned. -/
theorem no_champion_iff_all_zero {β : Type} (gens : List (List (ℚ × β)))
    (hnn : ∀ gen ∈ gens, ∀ sg ∈ gen, 0 ≤ sg.1) :
    trainChampion gens = none ↔ ∀ gen ∈ gens, ∀ sg ∈ gen, sg.1 = 0 := by
  unfold trainChampion
  rw [trainChampion_foldl_none]
  constructor
  · rintro ⟨-, hall⟩
    intro gen hgen sg hsg
    exact le_antisymm (hall gen hgen sg hsg) (hnn gen hgen sg hsg)
  · intro hall
    exact ⟨rfl, fun gen hgen sg hsg => le_of_eq (hall gen hgen sg hsg)⟩

/-- C9 witness: on concrete all-zero generations the champion slot stays
empty. -/
theorem no_champion_iff_all_zero_witness :
    trainChampion c9gens = none :=
  (no_champion_iff_all_zero c9gens (by decide)).mpr (by decide)

/-- With total score 0, the degenerate selection path picks exactly the
individual at the uniformly drawn index; the roulette interval is never
sampled. -/
theorem selectParent_zero {β : Type} (scored : List (ℚ × β)) (r : ℚ) (i : Nat)
    (hi : i < scored.length) :
    selectParent scored 0 r i = some (scored.get ⟨i, hi⟩).2 := by
  unfold selectParent
  rw [if_neg (lt_irrefl 0), if_pos rfl, List.getElem?_eq_getElem hi]
  rfl

/-- The reproduction loop with total score 0 appends one mutated clone of an
index-drawn parent per iteration. -/
theorem reproduce_fold {β : Type} (scored : List (ℚ × β)) (mutate : β → β)
    (draws : Nat → ℚ × Nat) (hd : ∀ k, (draws k).2 < scored.length) :
    ∀ (n : Nat) (pop : List β),
      (List.range n).foldl (reproduceStep scored 0 mutate draws) (some pop) =
        some (pop ++ (List.range n).map fun k =>
          mutate (scored.get ⟨(draws k).2, hd k⟩).2) := by
  intro n
  induction n with
  | zero =>
      intro pop
      simp
  | succ k ih =>
      intro pop
      rw [List.range_succ, List.foldl_append, ih, List.map_append]
      simp only [List.foldl_cons, List.foldl_nil, List.map_cons, List.map_nil]
      unfold reproduceStep
      rw [selectParent_zero scored (draws k).1 (draws k).2 (hd k)]
      simp [List.append_assoc]

/-- C6: on a scored population of size `N` with total score exactly 0, the
reproduction loop terminates with exactly `N` offspring, each one a mutated
clone of the parent picked by that iteration's uniform index draw (any
in-range draw sequence); the zero-width roulette interval is never sampled --
the result does not depend on the rolls `(draws k).1` at all. -/
theorem zero_score_reproduction {β : Type} (scored : List (ℚ × β)) (mutate : β → β)
    (draws : Nat → ℚ × Nat)
    (hsum : (scored.map Prod.fst).sum = 0)
    (hd : ∀ k, (draws k).2 < scored.length) :
    selectAndReproduce scored mutate draws scored.length =
      some ((List.range scored.length).map fun k =>
        mutate (scored.get ⟨(draws k).2, hd k⟩).2) := by
  have h := reproduce_fold scored mutate draws hd scored.length []
  simp only [List.nil_append] at h
  simp only [selectAndReproduce, hsum]
  exact h

/-- C6 witness: two zero-scored parents, a constant index draw, and the
successor function standing for mutation produce exactly two offspring. -/
theorem zero_score_reproduction_witness :
    selectAndReproduce [((0 : ℚ), (7 : Nat)), (0, 8)] Nat.succ (fun _ => ((0 : ℚ), 0)) 2 =
      some [8, 8] :=
  (zero_score_reproduction [((0 : ℚ), (7 : Nat)), (0, 8)] Nat.succ
    (fun _ => ((0 : ℚ), 0)) (by norm_num) (fun _ => by norm_num)).trans (by decide)

end SnakeGame
